import Mathlib

/-!
Shallow embedding of the weldyn/confyg reconciliation engine
(`src/weldyn/model_to_yaml_interface.py` and `src/weldyn/weldyn.py`).

Document trees loaded from YAML are modelled by the inductive `Node`:
scalars (null, bool, int, string), sequences and ordered mappings.
Python dicts are modelled as ordered association lists with unique keys;
lookups return the first matching entry, mirroring dict semantics on the
duplicate-free lists that actually arise.
Python exceptions (TypeError from `in` on a non-container, KeyError from
indexing, AttributeError from a missing YAML_PATH, ValueError from the
overlap check) are modelled by `Except WeldynError`.
-/

/-- Tree of values as produced by `yaml.safe_load` / pydantic `.dict()`:
scalars, sequences and ordered mappings. -/
inductive Node where
  | nullV : Node
  | boolV : Bool → Node
  | intV : Int → Node
  | strV : String → Node
  | seqV : List Node → Node
  | mapV : List (String × Node) → Node

mutual
/-- Structural equality test on trees, mirroring Python `==` on the values
yaml produces (used by `in` on lists). -/
def nodeBeq : Node → Node → Bool
  | Node.nullV, Node.nullV => true
  | Node.boolV a, Node.boolV b => a = b
  | Node.intV a, Node.intV b => a = b
  | Node.strV a, Node.strV b => a = b
  | Node.seqV a, Node.seqV b => nodeListBeq a b
  | Node.mapV a, Node.mapV b => nodeEntriesBeq a b
  | _, _ => false

/-- Elementwise equality of sequences. -/
def nodeListBeq : List Node → List Node → Bool
  | [], [] => true
  | a :: as, b :: bs => nodeBeq a b && nodeListBeq as bs
  | _, _ => false

/-- Entrywise equality of mappings. -/
def nodeEntriesBeq : List (String × Node) → List (String × Node) → Bool
  | [], [] => true
  | (k, v) :: as, (l, w) :: bs => (k = l : Bool) && nodeBeq v w && nodeEntriesBeq as bs
  | _, _ => false
end

/-- Python `x in l` for a list: membership via `==`. -/
def seqContains (l : List Node) (x : Node) : Bool :=
  match l with
  | [] => false
  | a :: rest => if nodeBeq a x then true else seqContains rest x

/-- Python `isinstance(x, dict)`. -/
def Node.isDict : Node → Bool
  | Node.mapV _ => true
  | _ => false

/-- First-match lookup in an ordered association list (Python `d[key]` /
`key in d` on dicts, which have unique keys). -/
def lookupKey {α : Type} : List (String × α) → String → Option α
  | [], _ => none
  | (k, v) :: rest, key => if k = key then some v else lookupKey rest key

/-- Python `d[key] = v` on a dict: replaces the value in place if the key
exists (keeping its position), otherwise appends the binding at the end. -/
def setKey {α : Type} : List (String × α) → String → α → List (String × α)
  | [], key, v => [(key, v)]
  | (k, w) :: rest, key, v =>
    if k = key then (key, v) :: rest else (k, w) :: setKey rest key v

/-- Keys of an association list, in order. -/
def keysOf {α : Type} (l : List (String × α)) : List String := l.map Prod.fst

/-- Python `s in l` for a list of strings. -/
def memberStr : List String → String → Bool
  | [], _ => false
  | s :: rest, key => if s = key then true else memberStr rest key

/-- Python list-prefix test on characters (helper for substring search). -/
def leadsWith : List Char → List Char → Bool
  | [], _ => true
  | _ :: _, [] => false
  | a :: as, b :: bs => if a = b then leadsWith as bs else false

/-- Occurrence of one character list inside another (helper for Python
`key in s` on strings, which is a substring test). -/
def occursIn (needle : List Char) : List Char → Bool
  | [] => needle.isEmpty
  | c :: rest => if leadsWith needle (c :: rest) then true else occursIn needle rest

/-- Python `key in s` for strings: substring containment. -/
def strHasSub (hay needle : String) : Bool := occursIn needle.toList hay.toList

/-- Python `s.endswith(suf)`: suffix test, via a leading-match test on the
reversed character lists. -/
def trailsWith (s suf : String) : Bool := leadsWith suf.toList.reverse s.toList.reverse

/-- Faithful translation of `update_nested_yaml_from_model`
(`model_to_yaml_interface.py:62-82`): iterate the model's entries in
order; recurse when both sides are dicts; keep the YAML value verbatim
when the model value is not a dict and the key is present; otherwise take
the model's value. -/
def update_nested_yaml_from_model :
    List (String × Node) → List (String × Node) → List (String × Node)
  | [], _ => []
  | (key, value) :: rest, yamlData =>
    let newValue : Node :=
      match value, lookupKey yamlData key with
      | Node.mapV mm, some (Node.mapV ym) =>
        Node.mapV (update_nested_yaml_from_model mm ym)
      | Node.mapV mm, some _ => Node.mapV mm
      | _, some yv => yv
      | _, none => value
    (key, newValue) :: update_nested_yaml_from_model rest yamlData
termination_by md _ => sizeOf md

/-- Merge rule for a single key, as the spec words it in §4.3: if the key
is persisted and both sides are map-typed, recurse; if persisted and the
default is not map-typed, keep the persisted value verbatim; otherwise
adopt the default wholesale. -/
def mergeRuleSpec (dv : Node) (pv : Option Node) : Node :=
  match pv, dv with
  | some (Node.mapV pm), Node.mapV dm => Node.mapV (update_nested_yaml_from_model dm pm)
  | some _, Node.mapV dm => Node.mapV dm
  | some pv', _ => pv'
  | none, _ => dv

/-- Faithful translation of `remove_missing_sections`
(`model_to_yaml_interface.py:85-96`): delete the top-level keys that are
not in `models`, preserving the order of the survivors. -/
def remove_missing_sections (data : List (String × Node)) (models : List String) :
    List (String × Node) :=
  data.filter (fun kv => memberStr models kv.1)

/-- Errors surfaced by the embedding, named after the spec's taxonomy:
`typeError` models Python's TypeError from `key in v` on a non-container,
`keyError` models KeyError from `data[field.name]`, `missingLocation`
models the AttributeError from an undeclared YAML_PATH, and
`ownershipConflict` models the ValueError from `check_model_overlap`. -/
inductive WeldynError where
  | missingLocation : WeldynError
  | ownershipConflict : String → WeldynError
  | typeError : WeldynError
  | keyError : WeldynError
deriving Repr, DecidableEq

/-- Python `key in v` for an arbitrary loaded value `v`: key membership on
dicts, element membership on lists, substring test on strings; TypeError
on null, booleans and numbers. -/
def memberOf (key : String) : Node → Except WeldynError Bool
  | Node.mapV m => Except.ok (lookupKey m key).isSome
  | Node.seqV l => Except.ok (seqContains l (Node.strV key))
  | Node.strV s => Except.ok (strHasSub s key)
  | _ => Except.error WeldynError.typeError

/-- Python `any(key not in v for key in keys)`: lazily test the keys in
order, stopping at the first one that is missing (or at the first
TypeError). -/
def anyKeyMissing (keys : List String) (v : Node) : Except WeldynError Bool :=
  match keys with
  | [] => Except.ok false
  | k :: rest =>
    match memberOf k v with
    | Except.error e => Except.error e
    | Except.ok true => anyKeyMissing rest v
    | Except.ok false => Except.ok true

/-- Tail of `update_yaml_from_model` (`model_to_yaml_interface.py:116-122`),
run after the reset guard: if the section's value is a dict, replace it by
the recursive merge of the model data against it; prune sections not in
`models`; return the document to dump together with the section's value
(`data[field.name]`, a KeyError when the section was pruned). -/
def reconcileLoaded (fieldName : String) (modelData : List (String × Node))
    (models : List String) (data1 : List (String × Node)) :
    Except WeldynError (List (String × Node) × Node) :=
  let data2 : List (String × Node) :=
    match lookupKey data1 fieldName with
    | some (Node.mapV ydata) =>
      setKey data1 fieldName (Node.mapV (update_nested_yaml_from_model modelData ydata))
    | _ => data1
  let data3 := remove_missing_sections data2 models
  match lookupKey data3 fieldName with
  | some v => Except.ok (data3, v)
  | none => Except.error WeldynError.keyError

/-- Faithful translation of `update_yaml_from_model`
(`model_to_yaml_interface.py:99-122`) on the already-loaded document
`data`: reset the section to the model's defaults when the section is
missing or lacks some top-level model key (line 113-114), then run the
merge-prune-return tail (`reconcileLoaded`). -/
def update_yaml_from_model (fieldName : String) (modelData : List (String × Node))
    (models : List String) (data : List (String × Node)) :
    Except WeldynError (List (String × Node) × Node) :=
  let step1 : Except WeldynError (List (String × Node)) :=
    match lookupKey data fieldName with
    | none => Except.ok (setKey data fieldName (Node.mapV modelData))
    | some v =>
      match anyKeyMissing (keysOf modelData) v with
      | Except.error e => Except.error e
      | Except.ok true => Except.ok (setKey data fieldName (Node.mapV modelData))
      | Except.ok false => Except.ok data
  match step1 with
  | Except.error e => Except.error e
  | Except.ok data1 => reconcileLoaded fieldName modelData models data1

/-- Lookup along a path of keys, descending through nested mappings. -/
def pathLookup : Node → List String → Option Node
  | node, [] => some node
  | node, k :: rest =>
    match node with
    | Node.mapV m =>
      match lookupKey m k with
      | some v => pathLookup v rest
      | none => none
    | _ => none

mutual
/-- Well-formedness of a tree: every mapping in it has pairwise distinct
keys (always true of trees produced by `yaml.safe_load` or pydantic's
`.dict()`, since Python dicts cannot hold duplicate keys). -/
def wfNode : Node → Bool
  | Node.mapV m => wfEntries m
  | _ => true

/-- Well-formedness of a mapping's entries: the keys are distinct and
every value is itself well-formed. -/
def wfEntries : List (String × Node) → Bool
  | [] => true
  | (k, v) :: rest => !(memberStr (keysOf rest) k) && wfNode v && wfEntries rest
end

/-- Values on which Python's `in` test does not raise: dicts, lists and
strings are membership-testable containers, while null, booleans and
numbers make `key in v` raise a TypeError. -/
def Node.supportsMember : Node → Bool
  | Node.mapV _ => true
  | Node.seqV _ => true
  | Node.strV _ => true
  | _ => false

/-- Filesystem side effects performed by the orchestrator: the
`mkdir(exist_ok=True, parents=True)` in `check_yaml_path`, the read in
`load_yaml` and the writes in `dump_yaml_data`. -/
inductive IOEvent where
  | mkdirEvent : IOEvent
  | readEvent : String → IOEvent
  | writeEvent : String → IOEvent
deriving Repr, DecidableEq

/-- Abstract filesystem: the parsed content of each YAML file by name,
plus the ordered log of I/O events performed so far. -/
structure FsState where
  files : List (String × List (String × Node))
  events : List IOEvent

/-- Declarations found in a schema's inner `YamlConfig` class.
`yamlPath = none` models a class with no `YAML_PATH` attribute (reading it
raises AttributeError); `yamlPath = some none` models `YAML_PATH = None`;
`modelMapping = none` models an absent `MODEL_MAPPING`. -/
structure YamlConfigDecl where
  yamlPath : Option (Option String)
  modelMapping : Option (List (String × List String))

/-- Faithful translation of `get_model_mapping_and_path`
(`model_to_yaml_interface.py:144-162`): reading `YAML_PATH` raises when it
is undeclared (modelled as `missingLocation`); an undeclared
`MODEL_MAPPING` defaults to the empty mapping. -/
def get_model_mapping_and_path (cfg : YamlConfigDecl) :
    Except WeldynError (Option String × List (String × List String)) :=
  match cfg.yamlPath with
  | none => Except.error WeldynError.missingLocation
  | some p => Except.ok (p, cfg.modelMapping.getD [])

/-- Faithful translation of `check_model_overlap`
(`model_to_yaml_interface.py:136-141`): raise (modelled as
`ownershipConflict` naming the field) when the field's name occurs in the
destination lists of more than one YAML file. -/
def check_model_overlap (fieldName : String)
    (modelMapping : List (String × List String)) : Except WeldynError Unit :=
  if (modelMapping.filter (fun yf => memberStr yf.2 fieldName)).length > 1 then
    Except.error (WeldynError.ownershipConflict fieldName)
  else Except.ok ()

/-- Name-resolution part of `check_yaml_path`
(`model_to_yaml_interface.py:125-133`): append a `.yaml` extension when the
destination identifier carries neither `.yaml` nor `.yml`.  The function's
`mkdir` side effect is recorded by the caller as an `IOEvent`. -/
def check_yaml_path (yamlFile : String) : String :=
  if trailsWith yamlFile ".yaml" || trailsWith yamlFile ".yml" then yamlFile
  else yamlFile ++ ".yaml"

/-- First entry of the model mapping whose destination list contains the
field, mirroring the `for yaml_file, models in model_mapping.items()` loop
of `load_or_generate_model_config` (`weldyn.py:65-71`). -/
def findOwner (fieldName : String) :
    List (String × List String) → Option (String × List String)
  | [] => none
  | (yf, ms) :: rest =>
    if memberStr ms fieldName then some (yf, ms) else findOwner fieldName rest

/-- Faithful translation of `generate_yaml_from_model`
(`model_to_yaml_interface.py:45-59`): the generated document wraps the
model's default tree one level under the field's own name. -/
def generate_yaml_from_model (fieldName : String)
    (modelDefault : List (String × Node)) : List (String × Node) :=
  [(fieldName, Node.mapV modelDefault)]

/-- Faithful translation of the per-field validator
`load_or_generate_model_config` (`weldyn.py:58-72`): resolve the path and
mapping (AttributeError when `YAML_PATH` is undeclared), skip persistence
when `YAML_PATH` is `None`, check ownership, find the owning destination
(pass the in-memory default `v` through when none owns the field), resolve
the file name (recording the `mkdir`), generate the file from defaults when
absent, then load it and run `update_yaml_from_model`, persisting the
returned document. -/
def load_or_generate_model_config (fieldName : String)
    (modelDefault : List (String × Node)) (cfg : YamlConfigDecl) (v : Node)
    (fs : FsState) : Except WeldynError Node × FsState :=
  match get_model_mapping_and_path cfg with
  | Except.error e => (Except.error e, fs)
  | Except.ok (yamlPath, modelMapping) =>
    match yamlPath with
    | none => (Except.ok v, fs)
    | some _ =>
      match check_model_overlap fieldName modelMapping with
      | Except.error e => (Except.error e, fs)
      | Except.ok _ =>
        match findOwner fieldName modelMapping with
        | none => (Except.ok v, fs)
        | some (yamlFile, models) =>
          let fileName := check_yaml_path yamlFile
          let fs1 : FsState := ⟨fs.files, fs.events ++ [IOEvent.mkdirEvent]⟩
          let fs2 : FsState :=
            match lookupKey fs1.files fileName with
            | some _ => fs1
            | none =>
              ⟨setKey fs1.files fileName (generate_yaml_from_model fieldName modelDefault),
                fs1.events ++ [IOEvent.writeEvent fileName]⟩
          match lookupKey fs2.files fileName with
          | none => (Except.error WeldynError.keyError, fs2)
          | some content =>
            let fs3 : FsState := ⟨fs2.files, fs2.events ++ [IOEvent.readEvent fileName]⟩
            match update_yaml_from_model fieldName modelDefault models content with
            | Except.error e => (Except.error e, fs3)
            | Except.ok (newDoc, sectionValue) =>
              (Except.ok sectionValue,
                ⟨setKey fs3.files fileName newDoc,
                  fs3.events ++ [IOEvent.writeEvent fileName]⟩)

/-- Sequential validation of the schema's fields in declaration order,
each field given as its name, its default tree (`model_class().dict()`)
and its in-memory default value `v`; the first validator error aborts. -/
def constructFields (cfg : YamlConfigDecl) :
    List (String × List (String × Node) × Node) → FsState →
    Except WeldynError (List (String × Node)) × FsState
  | [], fs => (Except.ok [], fs)
  | (name, dTree, v) :: rest, fs =>
    match load_or_generate_model_config name dTree cfg v fs with
    | (Except.error e, fs1) => (Except.error e, fs1)
    | (Except.ok value, fs1) =>
      match constructFields cfg rest fs1 with
      | (Except.error e, fs2) => (Except.error e, fs2)
      | (Except.ok values, fs2) => (Except.ok ((name, value) :: values), fs2)

/-- Construction of a `YamlConfigurableModel` instance: the pre
`root_validator` `check_yaml_path` (`weldyn.py:51-56`) touches
`YamlConfig.YAML_PATH` first (AttributeError when undeclared), then every
field's validator runs in declaration order. -/
def constructModel (cfg : YamlConfigDecl)
    (fields : List (String × List (String × Node) × Node)) (fs : FsState) :
    Except WeldynError (List (String × Node)) × FsState :=
  match cfg.yamlPath with
  | none => (Except.error WeldynError.missingLocation, fs)
  | some _ => constructFields cfg fields fs

/-! ### Basic lemmas about association-list operations -/

theorem memberStr_iff (l : List String) (s : String) :
    memberStr l s = true ↔ s ∈ l := by
  induction l with
  | nil => simp [memberStr]
  | cons a rest ih =>
    by_cases h : a = s
    · subst h; simp [memberStr]
    · simp [memberStr, h, ih, Ne.symm h]

theorem lookupKey_setKey_self {α : Type} (l : List (String × α)) (k : String) (v : α) :
    lookupKey (setKey l k v) k = some v := by
  induction l with
  | nil => simp [setKey, lookupKey]
  | cons kv rest ih =>
    obtain ⟨k', w⟩ := kv
    by_cases h : k' = k
    · simp [setKey, h, lookupKey]
    · simp [setKey, h, lookupKey, ih]

theorem setKey_eq_self {α : Type} (l : List (String × α)) (k : String) (v : α)
    (h : lookupKey l k = some v) : setKey l k v = l := by
  induction l with
  | nil => simp [lookupKey] at h
  | cons kv rest ih =>
    obtain ⟨k', w⟩ := kv
    by_cases hk : k' = k
    · subst hk
      simp [lookupKey] at h
      simp [setKey, h]
    · simp [lookupKey, hk] at h
      simp [setKey, hk, ih h]

theorem lookupKey_isSome_of_mem_keys {α : Type} (l : List (String × α)) (k : String)
    (h : k ∈ keysOf l) : (lookupKey l k).isSome = true := by
  induction l with
  | nil => simp [keysOf] at h
  | cons kv rest ih =>
    obtain ⟨k', w⟩ := kv
    by_cases hk : k' = k
    · simp [lookupKey, hk]
    · simp [keysOf] at h
      rcases h with h | h
      · exact absurd h.symm hk
      · simpa [lookupKey, hk] using ih (by simpa [keysOf] using h)

theorem lookupKey_filter {α : Type} (l : List (String × α)) (q : String → Bool) (k : String) :
    lookupKey (l.filter (fun kv => q kv.1)) k =
      if q k then lookupKey l k else none := by
  induction l with
  | nil => simp [lookupKey]
  | cons kv rest ih =>
    obtain ⟨k', w⟩ := kv
    by_cases hk : k' = k
    · subst hk
      by_cases hq : q k' = true
      · simp [List.filter, hq, lookupKey]
      · simp only [Bool.not_eq_true] at hq
        simp [List.filter, hq, lookupKey, ih]
    · by_cases hq : q k' = true
      · simp [List.filter, hq, lookupKey, hk, ih]
      · simp only [Bool.not_eq_true] at hq
        simp [List.filter, hq, lookupKey, hk, ih]

theorem lookup_remove_missing (data : List (String × Node)) (models : List String)
    (k : String) :
    lookupKey (remove_missing_sections data models) k =
      if memberStr models k then lookupKey data k else none := by
  simpa [remove_missing_sections] using
    lookupKey_filter data (fun s => memberStr models s) k

theorem remove_missing_idem (data : List (String × Node)) (models : List String) :
    remove_missing_sections (remove_missing_sections data models) models =
      remove_missing_sections data models := by
  simp [remove_missing_sections, List.filter_filter]

theorem keysOf_remove_missing_sub (data : List (String × Node)) (models : List String)
    (k : String) (h : k ∈ keysOf (remove_missing_sections data models)) : k ∈ models := by
  simp only [keysOf, List.mem_map, remove_missing_sections] at h
  obtain ⟨kv, hmem, hfst⟩ := h
  have hq := (List.mem_filter.mp hmem).2
  subst hfst
  exact (memberStr_iff models kv.1).mp hq

/-! ### Equations and structure of the recursive merge -/

theorem update_nested_nil (y : List (String × Node)) :
    update_nested_yaml_from_model [] y = [] := by
  simp [update_nested_yaml_from_model]

theorem update_nested_cons (k : String) (v : Node) (rest y : List (String × Node)) :
    update_nested_yaml_from_model ((k, v) :: rest) y =
      (k, mergeRuleSpec v (lookupKey y k)) :: update_nested_yaml_from_model rest y := by
  cases v <;> rcases h : lookupKey y k with _ | w <;> (try cases w) <;>
    simp [update_nested_yaml_from_model, mergeRuleSpec, h]

theorem mergeRuleSpec_not_dict (dv pv : Node) (h : dv.isDict = false) :
    mergeRuleSpec dv (some pv) = pv := by
  cases dv <;> simp [Node.isDict] at h ⊢ <;> cases pv <;> simp [mergeRuleSpec]

theorem keysOf_update_nested (D P : List (String × Node)) :
    keysOf (update_nested_yaml_from_model D P) = keysOf D := by
  induction D with
  | nil => simp [update_nested_nil, keysOf]
  | cons kv rest ih =>
    obtain ⟨k, v⟩ := kv
    simp [update_nested_cons, keysOf] at ih ⊢
    exact ih

theorem lookup_update_nested (D P : List (String × Node)) (k : String) (dv : Node)
    (h : lookupKey D k = some dv) :
    lookupKey (update_nested_yaml_from_model D P) k =
      some (mergeRuleSpec dv (lookupKey P k)) := by
  induction D with
  | nil => simp [lookupKey] at h
  | cons kv rest ih =>
    obtain ⟨k', v⟩ := kv
    by_cases hk : k' = k
    · subst hk
      simp [lookupKey] at h
      subst h
      simp [update_nested_cons, lookupKey]
    · simp [lookupKey, hk] at h
      simp [update_nested_cons, lookupKey, hk, ih h]

theorem lookup_update_nested_none (D P : List (String × Node)) (k : String)
    (h : lookupKey D k = none) :
    lookupKey (update_nested_yaml_from_model D P) k = none := by
  induction D with
  | nil => simp [update_nested_nil, lookupKey]
  | cons kv rest ih =>
    obtain ⟨k', v⟩ := kv
    by_cases hk : k' = k
    · simp [lookupKey, hk] at h
    · simp [lookupKey, hk] at h
      simp [update_nested_cons, lookupKey, hk, ih h]

theorem update_nested_shadow (D P : List (String × Node)) (k : String) (v : Node)
    (h : memberStr (keysOf D) k = false) :
    update_nested_yaml_from_model D ((k, v) :: P) =
      update_nested_yaml_from_model D P := by
  induction D with
  | nil => simp [update_nested_nil]
  | cons kv rest ih =>
    obtain ⟨k', v'⟩ := kv
    by_cases hk : k = k'
    · simp [keysOf, memberStr, hk] at h
    · simp [keysOf, memberStr, Ne.symm hk] at h
      simp [update_nested_cons, lookupKey, hk, ih h]

theorem wfEntries_cons (k : String) (v : Node) (rest : List (String × Node)) :
    wfEntries ((k, v) :: rest) =
      (!(memberStr (keysOf rest) k) && wfNode v && wfEntries rest) := by
  simp [wfEntries]

theorem wfNode_mapV (m : List (String × Node)) : wfNode (Node.mapV m) = wfEntries m := by
  simp [wfNode]

theorem update_nested_self_aux :
    ∀ n : Nat, ∀ D : List (String × Node), sizeOf D ≤ n → wfEntries D = true →
      update_nested_yaml_from_model D D = D := by
  intro n
  induction n with
  | zero =>
    intro D hsz _
    cases D with
    | nil => exact update_nested_nil []
    | cons kv rest =>
      simp [List.cons.sizeOf_spec] at hsz
  | succ n ih =>
    intro D hsz hwf
    cases D with
    | nil => exact update_nested_nil []
    | cons kv rest =>
      obtain ⟨k, v⟩ := kv
      rw [wfEntries_cons] at hwf
      simp only [Bool.and_eq_true, Bool.not_eq_true'] at hwf
      obtain ⟨⟨h1, h2⟩, h3⟩ := hwf
      simp only [List.cons.sizeOf_spec, Prod.mk.sizeOf_spec] at hsz
      rw [update_nested_cons]
      have hlk : lookupKey ((k, v) :: rest) k = some v := by simp [lookupKey]
      rw [hlk, update_nested_shadow rest rest k v h1,
        ih rest (by omega) h3]
      cases v with
      | mapV mm =>
        rw [wfNode_mapV] at h2
        simp only [Node.mapV.sizeOf_spec] at hsz
        simp [mergeRuleSpec, ih mm (by omega) h2]
      | nullV => simp [mergeRuleSpec]
      | boolV b => simp [mergeRuleSpec]
      | intV i => simp [mergeRuleSpec]
      | strV s => simp [mergeRuleSpec]
      | seqV l => simp [mergeRuleSpec]

theorem update_nested_self (D : List (String × Node)) (hwf : wfEntries D = true) :
    update_nested_yaml_from_model D D = D :=
  update_nested_self_aux (sizeOf D) D (Nat.le_refl _) hwf

theorem update_nested_idem_aux :
    ∀ n : Nat, ∀ D : List (String × Node), sizeOf D ≤ n → wfEntries D = true →
      ∀ P : List (String × Node),
        update_nested_yaml_from_model D (update_nested_yaml_from_model D P) =
          update_nested_yaml_from_model D P := by
  intro n
  induction n with
  | zero =>
    intro D hsz _
    cases D with
    | nil => intro P; simp [update_nested_nil]
    | cons kv rest =>
      simp [List.cons.sizeOf_spec] at hsz
  | succ n ih =>
    intro D hsz hwf
    cases D with
    | nil => intro P; simp [update_nested_nil]
    | cons kv rest =>
      obtain ⟨k, v⟩ := kv
      rw [wfEntries_cons] at hwf
      simp only [Bool.and_eq_true, Bool.not_eq_true'] at hwf
      obtain ⟨⟨h1, h2⟩, h3⟩ := hwf
      simp only [List.cons.sizeOf_spec, Prod.mk.sizeOf_spec] at hsz
      intro P
      rw [update_nested_cons k v rest P]
      rw [update_nested_cons k v rest
        ((k, mergeRuleSpec v (lookupKey P k)) :: update_nested_yaml_from_model rest P)]
      have hlk : lookupKey
          ((k, mergeRuleSpec v (lookupKey P k)) :: update_nested_yaml_from_model rest P) k
          = some (mergeRuleSpec v (lookupKey P k)) := by simp [lookupKey]
      rw [hlk, update_nested_shadow rest _ k _ h1, ih rest (by omega) h3 P]
      cases v with
      | mapV mm =>
        rw [wfNode_mapV] at h2
        simp only [Node.mapV.sizeOf_spec] at hsz
        rcases hP : lookupKey P k with _ | w
        · simp [mergeRuleSpec, update_nested_self_aux n mm (by omega) h2]
        · cases w with
          | mapV pm => simp [mergeRuleSpec, ih mm (by omega) h2 pm]
          | nullV => simp [mergeRuleSpec, update_nested_self_aux n mm (by omega) h2]
          | boolV b => simp [mergeRuleSpec, update_nested_self_aux n mm (by omega) h2]
          | intV i => simp [mergeRuleSpec, update_nested_self_aux n mm (by omega) h2]
          | strV s => simp [mergeRuleSpec, update_nested_self_aux n mm (by omega) h2]
          | seqV l => simp [mergeRuleSpec, update_nested_self_aux n mm (by omega) h2]
      | nullV => simp [mergeRuleSpec_not_dict, Node.isDict]
      | boolV b => simp [mergeRuleSpec_not_dict, Node.isDict]
      | intV i => simp [mergeRuleSpec_not_dict, Node.isDict]
      | strV s => simp [mergeRuleSpec_not_dict, Node.isDict]
      | seqV l => simp [mergeRuleSpec_not_dict, Node.isDict]

/-! ### Behaviour of the completeness guard -/

theorem anyKeyMissing_ok_false (ks : List String) (m : List (String × Node))
    (h : ∀ k ∈ ks, (lookupKey m k).isSome = true) :
    anyKeyMissing ks (Node.mapV m) = Except.ok false := by
  induction ks with
  | nil => simp [anyKeyMissing]
  | cons k rest ih =>
    have hk := h k (by simp)
    simp [anyKeyMissing, memberOf, hk, ih (fun k' hk' => h k' (by simp [hk']))]

theorem anyKeyMissing_ok_true (ks : List String) (m : List (String × Node))
    (h : ∃ k ∈ ks, lookupKey m k = none) :
    anyKeyMissing ks (Node.mapV m) = Except.ok true := by
  induction ks with
  | nil => simp at h
  | cons k rest ih =>
    by_cases hk : (lookupKey m k).isSome = true
    · obtain ⟨k', hk', hnone⟩ := h
      rcases List.mem_cons.mp hk' with h' | h'
      · subst h'; rw [hnone] at hk; simp at hk
      · simp [anyKeyMissing, memberOf, hk, ih ⟨k', h', hnone⟩]
    · rcases hn : lookupKey m k with _ | w
      · simp [anyKeyMissing, memberOf, hn]
      · rw [hn] at hk
        simp at hk

theorem anyKeyMissing_total (ks : List String) (v : Node)
    (hv : v.supportsMember = true) : ∃ b, anyKeyMissing ks v = Except.ok b := by
  induction ks with
  | nil => exact ⟨false, rfl⟩
  | cons k rest ih =>
    obtain ⟨b0, hb0⟩ : ∃ b0, memberOf k v = Except.ok b0 := by
      cases v <;> simp [Node.supportsMember] at hv <;> simp [memberOf]
    cases b0 with
    | true =>
      obtain ⟨b, hb⟩ := ih
      exact ⟨b, by simp [anyKeyMissing, hb0, hb]⟩
    | false => exact ⟨true, by simp [anyKeyMissing, hb0]⟩

/-! ### Characterizations of the reconciliation pipeline -/

theorem reconcileLoaded_map (s : String) (D : List (String × Node)) (models : List String)
    (data1 : List (String × Node)) (y : List (String × Node))
    (hl : lookupKey data1 s = some (Node.mapV y)) :
    reconcileLoaded s D models data1 =
      if memberStr models s then
        Except.ok
          (remove_missing_sections
            (setKey data1 s (Node.mapV (update_nested_yaml_from_model D y))) models,
            Node.mapV (update_nested_yaml_from_model D y))
      else Except.error WeldynError.keyError := by
  simp only [reconcileLoaded, hl]
  rw [lookup_remove_missing, lookupKey_setKey_self]
  by_cases hm : memberStr models s <;> simp [hm]

theorem reconcileLoaded_nonmap (s : String) (D : List (String × Node))
    (models : List String) (data1 : List (String × Node)) (y : Node)
    (hl : lookupKey data1 s = some y) (hy : y.isDict = false) :
    reconcileLoaded s D models data1 =
      if memberStr models s then Except.ok (remove_missing_sections data1 models, y)
      else Except.error WeldynError.keyError := by
  cases y <;> simp [Node.isDict] at hy <;> simp only [reconcileLoaded, hl] <;>
    rw [lookup_remove_missing] <;> rw [hl] <;>
    (by_cases hm : memberStr models s <;> simp [hm])

theorem update_yaml_none (s : String) (D : List (String × Node)) (models : List String)
    (data : List (String × Node)) (h : lookupKey data s = none) :
    update_yaml_from_model s D models data =
      reconcileLoaded s D models (setKey data s (Node.mapV D)) := by
  simp only [update_yaml_from_model, h]

theorem update_yaml_some (s : String) (D : List (String × Node)) (models : List String)
    (data : List (String × Node)) (v : Node) (h : lookupKey data s = some v) :
    update_yaml_from_model s D models data =
      match anyKeyMissing (keysOf D) v with
      | Except.error e => Except.error e
      | Except.ok true => reconcileLoaded s D models (setKey data s (Node.mapV D))
      | Except.ok false => reconcileLoaded s D models data := by
  simp only [update_yaml_from_model, h]
  rcases h2 : anyKeyMissing (keysOf D) v with e | b
  · simp
  · cases b <;> simp

theorem reset_then_reconcile (s : String) (D : List (String × Node))
    (models : List String) (data : List (String × Node)) (hwf : wfEntries D = true) :
    reconcileLoaded s D models (setKey data s (Node.mapV D)) =
      if memberStr models s then
        Except.ok (remove_missing_sections (setKey data s (Node.mapV D)) models,
          Node.mapV D)
      else Except.error WeldynError.keyError := by
  rw [reconcileLoaded_map s D models _ D (lookupKey_setKey_self data s _)]
  rw [update_nested_self D hwf,
    setKey_eq_self _ s _ (lookupKey_setKey_self data s _)]

/-! ### Lookups along key paths -/

theorem pathLookup_nil (v : Node) : pathLookup v [] = some v := rfl

theorem pathLookup_cons_some (m : List (String × Node)) (k : String) (p : List String)
    (v : Node) (h : lookupKey m k = some v) :
    pathLookup (Node.mapV m) (k :: p) = pathLookup v p := by
  simp [pathLookup, h]

theorem pathLookup_cons_none (m : List (String × Node)) (k : String) (p : List String)
    (h : lookupKey m k = none) :
    pathLookup (Node.mapV m) (k :: p) = none := by
  simp [pathLookup, h]

theorem pathLookup_preserved :
    ∀ (p : List String) (D P : List (String × Node)) (d v : Node),
      pathLookup (Node.mapV D) p = some d → d.isDict = false →
      pathLookup (Node.mapV P) p = some v →
      pathLookup (Node.mapV (update_nested_yaml_from_model D P)) p = some v := by
  intro p
  induction p with
  | nil =>
    intro D P d v hd hdict _
    rw [pathLookup_nil] at hd
    injection hd with hd
    rw [← hd] at hdict
    simp [Node.isDict] at hdict
  | cons k rest ih =>
    intro D P d v hd hdict hv
    rcases hD : lookupKey D k with _ | dv
    · rw [pathLookup_cons_none D k rest hD] at hd
      exact absurd hd (by simp)
    · rw [pathLookup_cons_some D k rest dv hD] at hd
      rcases hP : lookupKey P k with _ | pv
      · rw [pathLookup_cons_none P k rest hP] at hv
        exact absurd hv (by simp)
      · rw [pathLookup_cons_some P k rest pv hP] at hv
        have hres := lookup_update_nested D P k dv hD
        rw [hP] at hres
        rw [pathLookup_cons_some _ k rest _ hres]
        cases rest with
        | nil =>
          rw [pathLookup_nil] at hd hv ⊢
          injection hd with hd
          injection hv with hv
          rw [← hd] at hdict
          rw [mergeRuleSpec_not_dict dv pv hdict, hv]
        | cons k2 rest2 =>
          cases dv with
          | mapV dm =>
            cases pv with
            | mapV pm =>
              simp only [mergeRuleSpec]
              exact ih dm pm d v hd hdict hv
            | nullV => simp [pathLookup] at hv
            | boolV b => simp [pathLookup] at hv
            | intV i => simp [pathLookup] at hv
            | strV t => simp [pathLookup] at hv
            | seqV l => simp [pathLookup] at hv
          | nullV => simp [pathLookup] at hd
          | boolV b => simp [pathLookup] at hd
          | intV i => simp [pathLookup] at hd
          | strV t => simp [pathLookup] at hd
          | seqV l => simp [pathLookup] at hd

theorem pathLookup_keys :
    ∀ (p : List String) (D P dm : List (String × Node)),
      pathLookup (Node.mapV D) p = some (Node.mapV dm) →
      ∃ m2, pathLookup (Node.mapV (update_nested_yaml_from_model D P)) p =
          some (Node.mapV m2) ∧ keysOf m2 = keysOf dm := by
  intro p
  induction p with
  | nil =>
    intro D P dm hd
    rw [pathLookup_nil] at hd
    injection hd with hd
    injection hd with hd
    subst hd
    exact ⟨update_nested_yaml_from_model D P, pathLookup_nil _, keysOf_update_nested D P⟩
  | cons k rest ih =>
    intro D P dm hd
    rcases hD : lookupKey D k with _ | dv
    · rw [pathLookup_cons_none D k rest hD] at hd
      exact absurd hd (by simp)
    · rw [pathLookup_cons_some D k rest dv hD] at hd
      have hres := lookup_update_nested D P k dv hD
      cases dv with
      | mapV dmm =>
        rcases hP : lookupKey P k with _ | pv
        · rw [hP] at hres
          simp only [mergeRuleSpec] at hres
          rw [pathLookup_cons_some _ k rest _ hres]
          exact ⟨dm, hd, rfl⟩
        · rw [hP] at hres
          cases pv with
          | mapV pm =>
            simp only [mergeRuleSpec] at hres
            rw [pathLookup_cons_some _ k rest _ hres]
            exact ih dmm pm dm hd
          | nullV =>
            simp only [mergeRuleSpec] at hres
            rw [pathLookup_cons_some _ k rest _ hres]
            exact ⟨dm, hd, rfl⟩
          | boolV b =>
            simp only [mergeRuleSpec] at hres
            rw [pathLookup_cons_some _ k rest _ hres]
            exact ⟨dm, hd, rfl⟩
          | intV i =>
            simp only [mergeRuleSpec] at hres
            rw [pathLookup_cons_some _ k rest _ hres]
            exact ⟨dm, hd, rfl⟩
          | strV t =>
            simp only [mergeRuleSpec] at hres
            rw [pathLookup_cons_some _ k rest _ hres]
            exact ⟨dm, hd, rfl⟩
          | seqV l =>
            simp only [mergeRuleSpec] at hres
            rw [pathLookup_cons_some _ k rest _ hres]
            exact ⟨dm, hd, rfl⟩
      | nullV => cases rest <;> simp [pathLookup] at hd
      | boolV b => cases rest <;> simp [pathLookup] at hd
      | intV i => cases rest <;> simp [pathLookup] at hd
      | strV t => cases rest <;> simp [pathLookup] at hd
      | seqV l => cases rest <;> simp [pathLookup] at hd

theorem update_nested_idem (D : List (String × Node)) (hwf : wfEntries D = true)
    (P : List (String × Node)) :
    update_nested_yaml_from_model D (update_nested_yaml_from_model D P) =
      update_nested_yaml_from_model D P :=
  update_nested_idem_aux (sizeOf D) D (Nat.le_refl _) hwf P

theorem update_yaml_guard_error (s : String) (D : List (String × Node))
    (models : List String) (data : List (String × Node)) (v : Node) (e : WeldynError)
    (h : lookupKey data s = some v) (hg : anyKeyMissing (keysOf D) v = Except.error e) :
    update_yaml_from_model s D models data = Except.error e := by
  rw [update_yaml_some s D models data v h, hg]

theorem update_yaml_guard_reset (s : String) (D : List (String × Node))
    (models : List String) (data : List (String × Node)) (v : Node)
    (h : lookupKey data s = some v) (hg : anyKeyMissing (keysOf D) v = Except.ok true) :
    update_yaml_from_model s D models data =
      reconcileLoaded s D models (setKey data s (Node.mapV D)) := by
  rw [update_yaml_some s D models data v h, hg]

theorem update_yaml_guard_keep (s : String) (D : List (String × Node))
    (models : List String) (data : List (String × Node)) (v : Node)
    (h : lookupKey data s = some v) (hg : anyKeyMissing (keysOf D) v = Except.ok false) :
    update_yaml_from_model s D models data = reconcileLoaded s D models data := by
  rw [update_yaml_some s D models data v h, hg]

theorem after_reset_idem (s : String) (D : List (String × Node)) (models : List String)
    (data doc1 : List (String × Node)) (sec1 : Node) (hwf : wfEntries D = true)
    (h : reconcileLoaded s D models (setKey data s (Node.mapV D)) =
      Except.ok (doc1, sec1)) :
    update_yaml_from_model s D models doc1 = Except.ok (doc1, sec1) := by
  rw [reset_then_reconcile s D models data hwf] at h
  by_cases hm : memberStr models s = true
  · rw [if_pos hm] at h
    simp only [Except.ok.injEq, Prod.mk.injEq] at h
    obtain ⟨hdoc, hsec⟩ := h
    subst hdoc
    subst hsec
    have hl1 : lookupKey
        (remove_missing_sections (setKey data s (Node.mapV D)) models) s =
        some (Node.mapV D) := by
      rw [lookup_remove_missing, if_pos hm, lookupKey_setKey_self]
    rw [update_yaml_guard_keep s D models _ _ hl1
      (anyKeyMissing_ok_false _ D (fun k hk => lookupKey_isSome_of_mem_keys D k hk))]
    rw [reconcileLoaded_map s D models _ D hl1, if_pos hm]
    rw [update_nested_self D hwf, setKey_eq_self _ s _ hl1, remove_missing_idem]
  · rw [if_neg hm] at h
    simp at h

theorem keep_map_idem (s : String) (D : List (String × Node)) (models : List String)
    (data doc1 : List (String × Node)) (sec1 : Node) (m0 : List (String × Node))
    (hwf : wfEntries D = true) (h0 : lookupKey data s = some (Node.mapV m0))
    (h : reconcileLoaded s D models data = Except.ok (doc1, sec1)) :
    update_yaml_from_model s D models doc1 = Except.ok (doc1, sec1) := by
  rw [reconcileLoaded_map s D models data m0 h0] at h
  by_cases hm : memberStr models s = true
  · rw [if_pos hm] at h
    simp only [Except.ok.injEq, Prod.mk.injEq] at h
    obtain ⟨hdoc, hsec⟩ := h
    subst hdoc
    subst hsec
    have hl1 : lookupKey
        (remove_missing_sections
          (setKey data s (Node.mapV (update_nested_yaml_from_model D m0))) models) s =
        some (Node.mapV (update_nested_yaml_from_model D m0)) := by
      rw [lookup_remove_missing, if_pos hm, lookupKey_setKey_self]
    have hguard : anyKeyMissing (keysOf D)
        (Node.mapV (update_nested_yaml_from_model D m0)) = Except.ok false :=
      anyKeyMissing_ok_false _ _ (fun k hk =>
        lookupKey_isSome_of_mem_keys _ k (by rw [keysOf_update_nested]; exact hk))
    rw [update_yaml_guard_keep s D models _ _ hl1 hguard]
    rw [reconcileLoaded_map s D models _ _ hl1, if_pos hm]
    rw [update_nested_idem D hwf m0, setKey_eq_self _ s _ hl1, remove_missing_idem]
  · rw [if_neg hm] at h
    simp at h

theorem keep_nonmap_idem (s : String) (D : List (String × Node)) (models : List String)
    (data doc1 : List (String × Node)) (sec1 y0 : Node)
    (h0 : lookupKey data s = some y0) (hdict : y0.isDict = false)
    (hg : anyKeyMissing (keysOf D) y0 = Except.ok false)
    (h : reconcileLoaded s D models data = Except.ok (doc1, sec1)) :
    update_yaml_from_model s D models doc1 = Except.ok (doc1, sec1) := by
  rw [reconcileLoaded_nonmap s D models data y0 h0 hdict] at h
  by_cases hm : memberStr models s = true
  · rw [if_pos hm] at h
    simp only [Except.ok.injEq, Prod.mk.injEq] at h
    obtain ⟨hdoc, hsec⟩ := h
    subst hdoc
    subst hsec
    have hl1 : lookupKey (remove_missing_sections data models) s = some y0 := by
      rw [lookup_remove_missing, if_pos hm, h0]
    rw [update_yaml_guard_keep s D models _ y0 hl1 hg]
    rw [reconcileLoaded_nonmap s D models _ y0 hl1 hdict, if_pos hm,
      remove_missing_idem]
  · rw [if_neg hm] at h
    simp at h

/-! ### Claims -/

/-- C1, amended. Scalar preservation through `update_yaml_from_model`: when
the persisted section is a mapping that contains every top-level key of the
default tree (so the line-113 reset guard does not fire) and the section is
among the expected models, a persisted leaf value `v` at any key path `p`
at which the default tree also holds a leaf is still `v` in the merged
section, whatever the default value there is. -/
theorem claim1_scalar_preservation (s : String) (D : List (String × Node))
    (models : List String) (data psec : List (String × Node)) (p : List String)
    (d v : Node)
    (hsec : lookupKey data s = some (Node.mapV psec))
    (hguard : ∀ k ∈ keysOf D, (lookupKey psec k).isSome = true)
    (hmodels : memberStr models s = true)
    (hd : pathLookup (Node.mapV D) p = some d) (hdict : d.isDict = false)
    (hv : pathLookup (Node.mapV psec) p = some v) (_hvdict : v.isDict = false) :
    ∃ doc sec, update_yaml_from_model s D models data = Except.ok (doc, sec) ∧
      pathLookup sec p = some v := by
  rw [update_yaml_guard_keep s D models data _ hsec
    (anyKeyMissing_ok_false (keysOf D) psec hguard)]
  rw [reconcileLoaded_map s D models data psec hsec, if_pos hmodels]
  exact ⟨_, _, rfl, pathLookup_preserved p D psec d v hd hdict hv⟩

/-- Witness for C1: a concrete run of the amended scalar-preservation
theorem, with the persisted value 5 at key a surviving a default of 1. -/
theorem claim1_witness :
    (∀ k ∈ keysOf [("a", Node.intV 1)],
      (lookupKey [("a", Node.intV 5)] k).isSome = true) ∧
    ∃ doc sec,
      update_yaml_from_model "m" [("a", Node.intV 1)] ["m"]
          [("m", Node.mapV [("a", Node.intV 5)])] = Except.ok (doc, sec) ∧
        pathLookup sec ["a"] = some (Node.intV 5) :=
  ⟨by simp [keysOf, lookupKey],
    claim1_scalar_preservation "m" [("a", Node.intV 1)] ["m"]
      [("m", Node.mapV [("a", Node.intV 5)])] [("a", Node.intV 5)] ["a"]
      (Node.intV 1) (Node.intV 5) rfl (by simp [keysOf, lookupKey]) rfl
      (by simp [pathLookup, lookupKey]) rfl (by simp [pathLookup, lookupKey]) rfl⟩

/-- Counterexample to C1 as stated: key a holds the persisted leaf 5 and
the default tree declares a as a leaf, yet because key b is absent from
the persisted section the guard resets the whole section, and the merged
value at a is the default 1, not 5. -/
theorem claim1_counterexample :
    update_yaml_from_model "m" [("a", Node.intV 1), ("b", Node.intV 2)] ["m"]
        [("m", Node.mapV [("a", Node.intV 5)])] =
      Except.ok ([("m", Node.mapV [("a", Node.intV 1), ("b", Node.intV 2)])],
        Node.mapV [("a", Node.intV 1), ("b", Node.intV 2)]) ∧
    pathLookup (Node.mapV [("a", Node.intV 1), ("b", Node.intV 2)]) ["a"] =
      some (Node.intV 1) ∧
    pathLookup (Node.mapV [("a", Node.intV 5)]) ["a"] = some (Node.intV 5) ∧
    Node.intV 1 ≠ Node.intV 5 := by
  refine ⟨?_, by simp [pathLookup, lookupKey], by simp [pathLookup, lookupKey], by simp⟩
  simp [update_yaml_from_model, reconcileLoaded, anyKeyMissing, memberOf, keysOf,
    lookupKey, setKey, update_nested_cons, update_nested_nil, mergeRuleSpec,
    remove_missing_sections, memberStr, List.filter]

/-- C2, amended. In the spec's scenario (defaults a=1, b="value"; persisted
section {a: 2, c: "stale"}), the code's reset guard fires because b is
missing from the persisted section, so reconciliation yields
{model_1: {a: 1, b: "value"}}: a's persisted value is lost, b receives its
default and c is pruned. -/
theorem claim2_scenario :
    update_yaml_from_model "model_1" [("a", Node.intV 1), ("b", Node.strV "value")]
        ["model_1"]
        [("model_1", Node.mapV [("a", Node.intV 2), ("c", Node.strV "stale")])] =
      Except.ok
        ([("model_1", Node.mapV [("a", Node.intV 1), ("b", Node.strV "value")])],
          Node.mapV [("a", Node.intV 1), ("b", Node.strV "value")]) := by
  simp [update_yaml_from_model, reconcileLoaded, anyKeyMissing, memberOf, keysOf,
    lookupKey, setKey, update_nested_cons, update_nested_nil, mergeRuleSpec,
    remove_missing_sections, memberStr, List.filter]

/-- Counterexample to C2 as stated: reconciling the scenario's document
yields the section {a: 1, b: "value"}, which differs from the claimed
{a: 2, b: "value"} — a's persisted value 2 is not preserved. -/
theorem claim2_counterexample :
    update_yaml_from_model "model_1" [("a", Node.intV 1), ("b", Node.strV "value")]
        ["model_1"]
        [("model_1", Node.mapV [("a", Node.intV 2), ("c", Node.strV "stale")])] ≠
      Except.ok
        ([("model_1", Node.mapV [("a", Node.intV 2), ("b", Node.strV "value")])],
          Node.mapV [("a", Node.intV 2), ("b", Node.strV "value")]) := by
  simp [update_yaml_from_model, reconcileLoaded, anyKeyMissing, memberOf, keysOf,
    lookupKey, setKey, update_nested_cons, update_nested_nil, mergeRuleSpec,
    remove_missing_sections, memberStr, List.filter]

/-- C3. When the persisted document holds the section as a mapping that
lacks at least one top-level key of the (well-formed) default tree, and the
section is among the expected models, `update_yaml_from_model` replaces the
entire section with the default tree before merging, and the merged section
equals the defaults exactly — every user-edited value in it is lost,
including values at keys that were present. -/
theorem claim3_reset_on_missing_key (s : String) (D : List (String × Node))
    (models : List String) (data psec : List (String × Node))
    (hsec : lookupKey data s = some (Node.mapV psec))
    (hmiss : ∃ k ∈ keysOf D, lookupKey psec k = none)
    (hwf : wfEntries D = true) (hmodels : memberStr models s = true) :
    update_yaml_from_model s D models data =
      Except.ok (remove_missing_sections (setKey data s (Node.mapV D)) models,
        Node.mapV D) := by
  rw [update_yaml_guard_reset s D models data _ hsec
    (anyKeyMissing_ok_true (keysOf D) psec hmiss)]
  rw [reset_then_reconcile s D models data hwf, if_pos hmodels]

/-- Witness for C3: with defaults {a: 1, b: 2} and persisted section
{a: 5}, the merged section is exactly the default tree. -/
theorem claim3_witness :
    (∃ k ∈ keysOf [("a", Node.intV 1), ("b", Node.intV 2)],
      lookupKey [("a", Node.intV 5)] k = none) ∧
    update_yaml_from_model "m" [("a", Node.intV 1), ("b", Node.intV 2)] ["m"]
        [("m", Node.mapV [("a", Node.intV 5)])] =
      Except.ok
        (remove_missing_sections
          (setKey [("m", Node.mapV [("a", Node.intV 5)])] "m"
            (Node.mapV [("a", Node.intV 1), ("b", Node.intV 2)])) ["m"],
          Node.mapV [("a", Node.intV 1), ("b", Node.intV 2)]) :=
  ⟨⟨"b", by simp [keysOf], by simp [lookupKey]⟩,
    claim3_reset_on_missing_key "m" [("a", Node.intV 1), ("b", Node.intV 2)] ["m"]
      [("m", Node.mapV [("a", Node.intV 5)])] [("a", Node.intV 5)] rfl
      ⟨"b", by simp [keysOf], by simp [lookupKey]⟩
      (by simp [wfEntries, wfNode, keysOf, memberStr]) rfl⟩

/-- C4. The recursive merge returns a mapping whose keys are exactly the
default tree's keys in order, and whose entry at each key `k` of `D`
follows the spec's three-case rule (`mergeRuleSpec`): recurse when both
sides are mappings, keep the persisted value verbatim when the default is
not a mapping, and adopt the default wholesale otherwise. -/
theorem claim4_merge_rule (D P : List (String × Node)) :
    keysOf (update_nested_yaml_from_model D P) = keysOf D ∧
    ∀ k dv, lookupKey D k = some dv →
      lookupKey (update_nested_yaml_from_model D P) k =
        some (mergeRuleSpec dv (lookupKey P k)) :=
  ⟨keysOf_update_nested D P, fun k dv h => lookup_update_nested D P k dv h⟩

/-- Witness for C4: the merge of default {a: 1} against persisted {a: 7}
keeps the keys of the default and merges a by the spec rule. -/
theorem claim4_witness :
    lookupKey [("a", Node.intV 1)] "a" = some (Node.intV 1) ∧
    keysOf (update_nested_yaml_from_model [("a", Node.intV 1)] [("a", Node.intV 7)]) =
      keysOf [("a", Node.intV 1)] ∧
    lookupKey (update_nested_yaml_from_model [("a", Node.intV 1)] [("a", Node.intV 7)])
        "a" = some (mergeRuleSpec (Node.intV 1) (lookupKey [("a", Node.intV 7)] "a")) :=
  ⟨by simp [lookupKey],
    (claim4_merge_rule [("a", Node.intV 1)] [("a", Node.intV 7)]).1,
    (claim4_merge_rule [("a", Node.intV 1)] [("a", Node.intV 7)]).2 "a" (Node.intV 1)
      (by simp [lookupKey])⟩

/-- C5, amended. The reconciliation pass completes without error whenever
the value stored under the section's name is absent or supports Python
membership tests (a mapping, a sequence or a string) and the section is
among the expected models; when the stored value is a non-container scalar
(null, boolean or number) and the default tree is nonempty, the
completeness check `key not in data[field.name]` raises a TypeError
instead. -/
theorem claim5_no_error (s : String) (D : List (String × Node)) (models : List String)
    (data : List (String × Node))
    (hshape : lookupKey data s = none ∨
      ∃ v, lookupKey data s = some v ∧ v.supportsMember = true)
    (hmodels : memberStr models s = true) :
    ∃ r, update_yaml_from_model s D models data = Except.ok r := by
  rcases hshape with h0 | ⟨v, h0, hsup⟩
  · rw [update_yaml_none s D models data h0,
      reconcileLoaded_map s D models _ D (lookupKey_setKey_self data s _),
      if_pos hmodels]
    exact ⟨_, rfl⟩
  · obtain ⟨b, hb⟩ := anyKeyMissing_total (keysOf D) v hsup
    cases b with
    | true =>
      rw [update_yaml_guard_reset s D models data v h0 hb,
        reconcileLoaded_map s D models _ D (lookupKey_setKey_self data s _),
        if_pos hmodels]
      exact ⟨_, rfl⟩
    | false =>
      rw [update_yaml_guard_keep s D models data v h0 hb]
      cases v with
      | mapV m =>
        rw [reconcileLoaded_map s D models data m h0, if_pos hmodels]
        exact ⟨_, rfl⟩
      | seqV l =>
        rw [reconcileLoaded_nonmap s D models data _ h0 rfl, if_pos hmodels]
        exact ⟨_, rfl⟩
      | strV t =>
        rw [reconcileLoaded_nonmap s D models data _ h0 rfl, if_pos hmodels]
        exact ⟨_, rfl⟩
      | nullV => simp [Node.supportsMember] at hsup
      | boolV b2 => simp [Node.supportsMember] at hsup
      | intV i => simp [Node.supportsMember] at hsup

/-- Witness for C5: with a string persisted under the section's name the
pass completes without error. -/
theorem claim5_witness :
    (Node.strV "xyz").supportsMember = true ∧
    ∃ r, update_yaml_from_model "m" [("a", Node.intV 1)] ["m"]
      [("m", Node.strV "xyz")] = Except.ok r :=
  ⟨rfl,
    claim5_no_error "m" [("a", Node.intV 1)] ["m"] [("m", Node.strV "xyz")]
      (Or.inr ⟨Node.strV "xyz", by simp [lookupKey], rfl⟩) rfl⟩

/-- Counterexample to C5 as stated: with the integer scalar 7 persisted
under the section's name and a nonempty default tree, the pass raises a
TypeError (Python `"a" not in 7`) instead of computing a result. -/
theorem claim5_counterexample :
    update_yaml_from_model "m" [("a", Node.intV 1)] ["m"] [("m", Node.intV 7)] =
      Except.error WeldynError.typeError := by
  simp [update_yaml_from_model, anyKeyMissing, memberOf, keysOf, lookupKey]

/-- C6, amended. Pruning holds at every level at which the schema's default
tree declares a mapping: there the merged tree also holds a mapping whose
keys are exactly the default's keys, so persisted keys absent from the
schema's field set at that level are absent from the merged result; and
after `remove_missing_sections` every remaining top-level key belongs to
the mapped section list.  (Within a persisted subtree kept verbatim under a
leaf-typed default, persisted keys survive — see the counterexample.) -/
theorem claim6_pruning (D P : List (String × Node)) (p : List String)
    (dm : List (String × Node)) (data : List (String × Node)) (models : List String)
    (hd : pathLookup (Node.mapV D) p = some (Node.mapV dm)) :
    (∃ m2, pathLookup (Node.mapV (update_nested_yaml_from_model D P)) p =
        some (Node.mapV m2) ∧ keysOf m2 = keysOf dm) ∧
    ∀ k, k ∈ keysOf (remove_missing_sections data models) → k ∈ models :=
  ⟨pathLookup_keys p D P dm hd, fun k hk => keysOf_remove_missing_sub data models k hk⟩

/-- Witness for C6: at the path a, where the default tree declares the
mapping {x: 1}, the merged tree's keys are exactly x — the stale persisted
key z is pruned — and pruned top-level sections all lie in the model
list. -/
theorem claim6_witness :
    pathLookup (Node.mapV [("a", Node.mapV [("x", Node.intV 1)])]) ["a"] =
      some (Node.mapV [("x", Node.intV 1)]) ∧
    (∃ m2, pathLookup
        (Node.mapV (update_nested_yaml_from_model
          [("a", Node.mapV [("x", Node.intV 1)])]
          [("a", Node.mapV [("x", Node.intV 2), ("z", Node.intV 9)])])) ["a"] =
        some (Node.mapV m2) ∧ keysOf m2 = keysOf [("x", Node.intV 1)]) ∧
    ∀ k, k ∈ keysOf (remove_missing_sections [("old", Node.intV 0)] ["m"]) →
      k ∈ ["m"] :=
  ⟨by simp [pathLookup, lookupKey],
    (claim6_pruning [("a", Node.mapV [("x", Node.intV 1)])]
      [("a", Node.mapV [("x", Node.intV 2), ("z", Node.intV 9)])] ["a"]
      [("x", Node.intV 1)] [("old", Node.intV 0)] ["m"]
      (by simp [pathLookup, lookupKey])).1,
    (claim6_pruning [("a", Node.mapV [("x", Node.intV 1)])]
      [("a", Node.mapV [("x", Node.intV 2), ("z", Node.intV 9)])] ["a"]
      [("x", Node.intV 1)] [("old", Node.intV 0)] ["m"]
      (by simp [pathLookup, lookupKey])).2⟩

/-- Counterexample to C6 as stated: the default tree declares a as a leaf,
the persisted document holds the mapping {stale: 5} there; the merge keeps
that mapping verbatim, so the persisted key "stale" — absent from the
schema's field set at that level — is still present in the merged result
at depth. -/
theorem claim6_counterexample :
    update_nested_yaml_from_model [("a", Node.intV 1)]
        [("a", Node.mapV [("stale", Node.intV 5)])] =
      [("a", Node.mapV [("stale", Node.intV 5)])] ∧
    pathLookup (Node.mapV [("a", Node.mapV [("stale", Node.intV 5)])])
      ["a", "stale"] = some (Node.intV 5) ∧
    pathLookup (Node.mapV [("a", Node.intV 1)]) ["a"] = some (Node.intV 1) := by
  refine ⟨?_, by simp [pathLookup, lookupKey], by simp [pathLookup, lookupKey]⟩
  simp [update_nested_cons, update_nested_nil, mergeRuleSpec, lookupKey]

/-- C7. Reconciliation is idempotent: whenever a first pass over `data`
succeeds with document `doc1` and merged section `sec1`, running the same
pass (same well-formed defaults, same model list) over `doc1` returns the
identical `doc1` and `sec1` — the second pass changes nothing. -/
theorem claim7_idempotent (s : String) (D : List (String × Node))
    (models : List String) (data doc1 : List (String × Node)) (sec1 : Node)
    (hwf : wfEntries D = true)
    (h : update_yaml_from_model s D models data = Except.ok (doc1, sec1)) :
    update_yaml_from_model s D models doc1 = Except.ok (doc1, sec1) := by
  rcases h0 : lookupKey data s with _ | y0
  · rw [update_yaml_none s D models data h0] at h
    exact after_reset_idem s D models data doc1 sec1 hwf h
  · rcases hg : anyKeyMissing (keysOf D) y0 with e | b
    · rw [update_yaml_guard_error s D models data y0 e h0 hg] at h
      simp at h
    · cases b with
      | true =>
        rw [update_yaml_guard_reset s D models data y0 h0 hg] at h
        exact after_reset_idem s D models data doc1 sec1 hwf h
      | false =>
        rw [update_yaml_guard_keep s D models data y0 h0 hg] at h
        cases y0 with
        | mapV m0 => exact keep_map_idem s D models data doc1 sec1 m0 hwf h0 h
        | nullV => exact keep_nonmap_idem s D models data doc1 sec1 _ h0 rfl hg h
        | boolV b2 => exact keep_nonmap_idem s D models data doc1 sec1 _ h0 rfl hg h
        | intV i => exact keep_nonmap_idem s D models data doc1 sec1 _ h0 rfl hg h
        | strV t => exact keep_nonmap_idem s D models data doc1 sec1 _ h0 rfl hg h
        | seqV l => exact keep_nonmap_idem s D models data doc1 sec1 _ h0 rfl hg h

/-- Witness for C7: a first reconciliation of the empty document generates
the defaulted section; a second pass over its output returns it
unchanged. -/
theorem claim7_witness :
    wfEntries [("a", Node.intV 1)] = true ∧
    update_yaml_from_model "m" [("a", Node.intV 1)] ["m"] [] =
      Except.ok ([("m", Node.mapV [("a", Node.intV 1)])],
        Node.mapV [("a", Node.intV 1)]) ∧
    update_yaml_from_model "m" [("a", Node.intV 1)] ["m"]
        [("m", Node.mapV [("a", Node.intV 1)])] =
      Except.ok ([("m", Node.mapV [("a", Node.intV 1)])],
        Node.mapV [("a", Node.intV 1)]) :=
  ⟨by simp [wfEntries, wfNode, keysOf, memberStr],
    by simp [update_yaml_from_model, reconcileLoaded, anyKeyMissing, memberOf,
      keysOf, lookupKey, setKey, update_nested_cons, update_nested_nil,
      mergeRuleSpec, remove_missing_sections, memberStr, List.filter],
    claim7_idempotent "m" [("a", Node.intV 1)] ["m"] []
      [("m", Node.mapV [("a", Node.intV 1)])] (Node.mapV [("a", Node.intV 1)])
      (by simp [wfEntries, wfNode, keysOf, memberStr])
      (by simp [update_yaml_from_model, reconcileLoaded, anyKeyMissing, memberOf,
        keysOf, lookupKey, setKey, update_nested_cons, update_nested_nil,
        mergeRuleSpec, remove_missing_sections, memberStr, List.filter])⟩

/-- C8, amended. When the schema declares a configuration path and the
field being validated appears in the destination lists of more than one
YAML file, the field's validator returns the OwnershipConflict error naming
that field and leaves the filesystem untouched — the check runs before any
file operation of that field.  (Fields validated earlier may already have
performed their I/O; see the counterexample.) -/
theorem claim8_ownership (fieldName : String) (modelDefault : List (String × Node))
    (cfg : YamlConfigDecl) (v : Node) (fs : FsState) (p : String)
    (hpath : cfg.yamlPath = some (some p))
    (hdup : 1 < ((cfg.modelMapping.getD []).filter
        (fun yf => memberStr yf.2 fieldName)).length) :
    load_or_generate_model_config fieldName modelDefault cfg v fs =
      (Except.error (WeldynError.ownershipConflict fieldName), fs) := by
  simp only [load_or_generate_model_config, get_model_mapping_and_path, hpath]
  simp [check_model_overlap, hdup]

/-- Witness for C8: the field b is mapped to both f2 and f3, and its
validator fails with the conflict error without touching the filesystem. -/
theorem claim8_witness :
    1 < (([("f2", ["b"]), ("f3", ["b"])].filter
      (fun yf => memberStr yf.2 "b")).length) ∧
    load_or_generate_model_config "b" [("y", Node.intV 2)]
        ⟨some (some "/tmp"), some [("f2", ["b"]), ("f3", ["b"])]⟩ Node.nullV ⟨[], []⟩ =
      (Except.error (WeldynError.ownershipConflict "b"), ⟨[], []⟩) :=
  ⟨by simp [memberStr],
    claim8_ownership "b" [("y", Node.intV 2)]
      ⟨some (some "/tmp"), some [("f2", ["b"]), ("f3", ["b"])]⟩ Node.nullV ⟨[], []⟩
      "/tmp" rfl (by simp [memberStr])⟩

/-- Counterexample to C8 as stated: in a schema whose field a is validated
before the conflicting field b, construction does raise OwnershipConflict
for b, but only after a's destination file has been created, read and
written — the error does not precede all filesystem effects, so a
misconfigured schema can produce partial side effects. -/
theorem claim8_counterexample :
    constructModel
        ⟨some (some "/tmp"), some [("f1", ["a"]), ("f2", ["b"]), ("f3", ["b"])]⟩
        [("a", ([("x", Node.intV 1)], Node.nullV)),
          ("b", ([("y", Node.intV 2)], Node.nullV))] ⟨[], []⟩ =
      (Except.error (WeldynError.ownershipConflict "b"),
        ⟨[("f1.yaml", [("a", Node.mapV [("x", Node.intV 1)])])],
          [IOEvent.mkdirEvent, IOEvent.writeEvent "f1.yaml",
            IOEvent.readEvent "f1.yaml", IOEvent.writeEvent "f1.yaml"]⟩) ∧
    [IOEvent.mkdirEvent, IOEvent.writeEvent "f1.yaml", IOEvent.readEvent "f1.yaml",
      IOEvent.writeEvent "f1.yaml"] ≠ ([] : List IOEvent) := by
  refine ⟨?_, by simp⟩
  simp [constructModel, constructFields, load_or_generate_model_config,
    get_model_mapping_and_path, check_model_overlap, findOwner, check_yaml_path,
    trailsWith, leadsWith, generate_yaml_from_model, update_yaml_from_model,
    reconcileLoaded, anyKeyMissing, memberOf, keysOf, lookupKey, setKey,
    update_nested_cons, update_nested_nil, mergeRuleSpec, remove_missing_sections,
    memberStr, List.filter]

/-- C9. A schema with no declared YAML_PATH fails with the MissingLocation
error during construction, before any I/O, whatever the mapping declares
(including none); a schema with a path but no MODEL_MAPPING constructs
successfully, performs no filesystem operation, and every field receives
its in-memory default value. -/
theorem claim9_location (fields : List (String × List (String × Node) × Node))
    (fs : FsState) (cfgNoPath cfgNoMap : YamlConfigDecl) (p : String)
    (hnp : cfgNoPath.yamlPath = none)
    (hp : cfgNoMap.yamlPath = some (some p)) (hm : cfgNoMap.modelMapping = none) :
    constructModel cfgNoPath fields fs =
      (Except.error WeldynError.missingLocation, fs) ∧
    constructModel cfgNoMap fields fs =
      (Except.ok (fields.map (fun f => (f.1, f.2.2))), fs) := by
  constructor
  · simp [constructModel, hnp]
  · have key : ∀ fl (fs0 : FsState), constructFields cfgNoMap fl fs0 =
        (Except.ok (fl.map (fun f => (f.1, f.2.2))), fs0) := by
      intro fl
      induction fl with
      | nil => intro fs0; simp [constructFields]
      | cons f rest ih =>
        intro fs0
        obtain ⟨name, dTree, v⟩ := f
        simp [constructFields, load_or_generate_model_config,
          get_model_mapping_and_path, hp, hm, check_model_overlap, findOwner, ih]
    simp [constructModel, hp, key]

/-- Witness for C9: a one-field schema without YAML_PATH errors with
MissingLocation; the same schema with a path and no mapping constructs with
the in-memory default 42 and an untouched filesystem. -/
theorem claim9_witness :
    (⟨none, none⟩ : YamlConfigDecl).yamlPath = none ∧
    constructModel ⟨none, none⟩ [("m1", ([("a", Node.intV 1)], Node.intV 42))]
        ⟨[], []⟩ = (Except.error WeldynError.missingLocation, ⟨[], []⟩) ∧
    constructModel ⟨some (some "/tmp"), none⟩
        [("m1", ([("a", Node.intV 1)], Node.intV 42))] ⟨[], []⟩ =
      (Except.ok [("m1", Node.intV 42)], ⟨[], []⟩) :=
  ⟨rfl,
    (claim9_location [("m1", ([("a", Node.intV 1)], Node.intV 42))] ⟨[], []⟩
      ⟨none, none⟩ ⟨some (some "/tmp"), none⟩ "/tmp" rfl rfl rfl).1,
    (claim9_location [("m1", ([("a", Node.intV 1)], Node.intV 42))] ⟨[], []⟩
      ⟨none, none⟩ ⟨some (some "/tmp"), none⟩ "/tmp" rfl rfl rfl).2⟩

/-- C10. When the owning destination file does not yet exist, the field's
validator generates it from defaults and reconciles against it: it returns
the default tree as the section's merged value, and afterwards the
destination file holds exactly the default tree wrapped one level under the
section's own field name — recursively, every declared field bound to its
default value. -/
theorem claim10_default_completeness (fieldName : String) (D : List (String × Node))
    (cfg : YamlConfigDecl) (v : Node) (fs : FsState) (p yamlFile : String)
    (models : List String)
    (hpath : cfg.yamlPath = some (some p))
    (hnodup : ((cfg.modelMapping.getD []).filter
        (fun yf => memberStr yf.2 fieldName)).length ≤ 1)
    (howner : findOwner fieldName (cfg.modelMapping.getD []) = some (yamlFile, models))
    (hmodels : memberStr models fieldName = true)
    (hwf : wfEntries D = true)
    (hmissing : lookupKey fs.files (check_yaml_path yamlFile) = none) :
    ∃ events, load_or_generate_model_config fieldName D cfg v fs =
      (Except.ok (Node.mapV D),
        ⟨setKey fs.files (check_yaml_path yamlFile) [(fieldName, Node.mapV D)],
          events⟩) := by
  have hl : lookupKey [(fieldName, Node.mapV D)] fieldName = some (Node.mapV D) := by
    simp [lookupKey]
  have hupdate : update_yaml_from_model fieldName D models [(fieldName, Node.mapV D)] =
      Except.ok ([(fieldName, Node.mapV D)], Node.mapV D) := by
    rw [update_yaml_guard_keep fieldName D models _ _ hl
      (anyKeyMissing_ok_false _ D (fun k hk => lookupKey_isSome_of_mem_keys D k hk))]
    rw [reconcileLoaded_map fieldName D models _ D hl, if_pos hmodels]
    rw [update_nested_self D hwf, setKey_eq_self _ _ _ hl]
    simp [remove_missing_sections, List.filter, hmodels]
  have hover : check_model_overlap fieldName (cfg.modelMapping.getD []) =
      Except.ok () := by
    rw [check_model_overlap, if_neg (by omega)]
  refine ⟨fs.events ++ [IOEvent.mkdirEvent] ++
    [IOEvent.writeEvent (check_yaml_path yamlFile)] ++
    [IOEvent.readEvent (check_yaml_path yamlFile)] ++
    [IOEvent.writeEvent (check_yaml_path yamlFile)], ?_⟩
  simp only [load_or_generate_model_config, get_model_mapping_and_path, hpath,
    hover, howner, hmissing, generate_yaml_from_model, lookupKey_setKey_self,
    hupdate]
  rw [setKey_eq_self _ _ _ (lookupKey_setKey_self fs.files _ _)]

/-- Witness for C10: generating and reconciling the absent destination f
yields the defaulted section {a: 1} wrapped under the field name m. -/
theorem claim10_witness :
    wfEntries [("a", Node.intV 1)] = true ∧
    ∃ events, load_or_generate_model_config "m" [("a", Node.intV 1)]
        ⟨some (some "/tmp"), some [("f", ["m"])]⟩ Node.nullV ⟨[], []⟩ =
      (Except.ok (Node.mapV [("a", Node.intV 1)]),
        ⟨setKey [] (check_yaml_path "f") [("m", Node.mapV [("a", Node.intV 1)])],
          events⟩) :=
  ⟨by simp [wfEntries, wfNode, keysOf, memberStr],
    claim10_default_completeness "m" [("a", Node.intV 1)]
      ⟨some (some "/tmp"), some [("f", ["m"])]⟩ Node.nullV ⟨[], []⟩ "/tmp" "f" ["m"]
      rfl (by simp [memberStr]) (by simp [findOwner, memberStr]) rfl
      (by simp [wfEntries, wfNode, keysOf, memberStr]) rfl⟩
